import Mathlib

/-!
Verification of the QuantumFS client library (QFSClient), a C++ client that
talks to a userspace filesystem through a single control file named "api".
The definitions below are a shallow embedding of the functions in
`src/QFSClient/qfs_client_implementation.cc`: byte buffers become lists of
naturals, C strings become lists of characters or NUL-free byte lists, the
JSON library's parsed values become an inductive `Json` type, and the file
system and I/O layers become explicit oracles.
-/

namespace QfsClient

/-- The flat error enumeration from `qfs_client.h` (values used by the
implementation file). -/
inductive ErrorCode where
  | kSuccess
  | kCantOpenApiFile
  | kApiFileNotOpen
  | kApiFileSeekFail
  | kApiFileWriteFail
  | kApiFileFlushFail
  | kApiFileReadFail
  | kBufferTooBig
  | kDontKnowCwd
  | kCantFindApiFile
  | kWorkspacePathInvalid
  | kJsonEncodingError
  | kJsonDecodingError
  | kMissingJsonObject
  | kApiError
  deriving DecidableEq, Repr

open ErrorCode

/-- An `Error` value pairs the code with a human-readable detail string
(`util::getError` attaches contextual detail such as a path or response
text). -/
structure Error where
  code : ErrorCode
  message : String
  deriving DecidableEq, Repr

/-- Modelled from the spec: `util::getError` (in the utility translation
unit, not present under src/) builds an `Error` carrying the given code and
contextual detail. -/
def getError (code : ErrorCode) (detail : String) : Error :=
  ⟨code, detail⟩

/-! ## CheckWorkspacePathValid (`qfs_client_implementation.cc:271-291`)

The source uses `std::string::find(c, pos)`; we embed `find` as the index
of the first occurrence of a character at or after a starting position. -/

/-- Index of the first occurrence of `c` in `s`, if any
(`std::string::find(c)` with result `npos` mapped to `none`). -/
def strFind : List Char → Char → Option Nat
  | [], _ => none
  | x :: xs, c => if x = c then some 0 else (strFind xs c).map (· + 1)

/-- Embeds `std::string::find(c, pos)`: first occurrence of `c` at index ≥ `pos`. -/
def strFindFrom (s : List Char) (c : Char) (pos : Nat) : Option Nat :=
  (strFind (s.drop pos) c).map (· + pos)

/-- Embeds `ApiImpl::CheckWorkspacePathValid`: the path must contain exactly two
`'/'` characters; otherwise the result is `kWorkspacePathInvalid` with the
path attached. -/
def CheckWorkspacePathValid (workspace_root : List Char) : ErrorCode :=
  match strFindFrom workspace_root '/' 0 with
  | none => kWorkspacePathInvalid
  | some first =>
    match strFindFrom workspace_root '/' (first + 1) with
    | none => kWorkspacePathInvalid
    | some second =>
      match strFindFrom workspace_root '/' (second + 1) with
      | some _ => kWorkspacePathInvalid
      | none => kSuccess

lemma strFind_eq_none_iff (s : List Char) (c : Char) :
    strFind s c = none ↔ s.count c = 0 := by
  induction s with
  | nil => simp [strFind]
  | cons x xs ih =>
    by_cases hx : x = c
    · subst hx
      simp [strFind, List.count_cons]
    · simpa [strFind, hx, List.count_cons, Ne.symm hx] using ih

lemma strFind_eq_some_count (s : List Char) (c : Char) (i : Nat)
    (h : strFind s c = some i) :
    s.count c = (s.drop (i + 1)).count c + 1 := by
  induction s generalizing i with
  | nil => simp [strFind] at h
  | cons x xs ih =>
    by_cases hx : x = c
    · subst hx
      simp [strFind] at h
      subst h
      simp [List.count_cons]
    · simp [strFind, hx] at h
      obtain ⟨j, hj, hji⟩ := h
      subst hji
      have := ih j hj
      simpa [List.count_cons, hx, Ne.symm hx] using this

lemma strFindFrom_eq_none_iff (s : List Char) (c : Char) (p : Nat) :
    strFindFrom s c p = none ↔ (s.drop p).count c = 0 := by
  simp [strFindFrom, strFind_eq_none_iff]

lemma strFindFrom_eq_some_count (s : List Char) (c : Char) (p i : Nat)
    (h : strFindFrom s c p = some i) :
    (s.drop p).count c = (s.drop (i + 1)).count c + 1 := by
  simp only [strFindFrom, Option.map_eq_some'] at h
  obtain ⟨j, hj, hij⟩ := h
  have hcount := strFind_eq_some_count (s.drop p) c j hj
  rw [List.drop_drop] at hcount
  rw [show p + (j + 1) = i + 1 by omega] at hcount
  exact hcount

lemma checkWorkspacePathValid_cases (s : List Char) :
    CheckWorkspacePathValid s = kSuccess ∨
    CheckWorkspacePathValid s = kWorkspacePathInvalid := by
  unfold CheckWorkspacePathValid
  rcases strFindFrom s '/' 0 with _ | f
  · exact Or.inr rfl
  · simp only []
    rcases strFindFrom s '/' (f + 1) with _ | g
    · exact Or.inr rfl
    · simp only []
      rcases strFindFrom s '/' (g + 1) with _ | t
      · exact Or.inl rfl
      · exact Or.inr rfl

lemma checkWorkspacePathValid_success_iff (s : List Char) :
    CheckWorkspacePathValid s = kSuccess ↔ s.count '/' = 2 := by
  unfold CheckWorkspacePathValid
  split
  next h1 =>
    have hc := (strFindFrom_eq_none_iff s '/' 0).mp h1
    rw [List.drop_zero] at hc
    rw [hc]
    decide
  next f h1 =>
    have hc1 := strFindFrom_eq_some_count s '/' 0 f h1
    rw [List.drop_zero] at hc1
    split
    next h2 =>
      have hc2 := (strFindFrom_eq_none_iff s '/' (f + 1)).mp h2
      rw [hc1, hc2]
      decide
    next g h2 =>
      have hc2 := strFindFrom_eq_some_count s '/' (f + 1) g h2
      split
      next t h3 =>
        have hc3 := strFindFrom_eq_some_count s '/' (g + 1) t h3
        rw [hc1, hc2, hc3]
        exact iff_of_false (by decide) (by omega)
      next h3 =>
        have hc3 := (strFindFrom_eq_none_iff s '/' (g + 1)).mp h3
        rw [hc1, hc2, hc3]
        decide

/-- C1 counterexample: contrary to the claim, `CheckWorkspacePathValid`
does not accept `"a/b"`: the code demands exactly two `'/'` characters and
`"a/b"` has only one, so the call fails. -/
theorem checkWorkspacePathValid_rejects_one_slash :
    ¬ (CheckWorkspacePathValid "a/b".data = kSuccess) := by decide

/-- C1 (amended): `CheckWorkspacePathValid` accepts `"a/b/c"` (two `'/'`
separators, returning `kSuccess`) and rejects each of `"a/b"`, `"a"` and
`""` with `kWorkspacePathInvalid`. -/
theorem checkWorkspacePathValid_concrete :
    CheckWorkspacePathValid "a/b/c".data = kSuccess ∧
    CheckWorkspacePathValid "a/b".data = kWorkspacePathInvalid ∧
    CheckWorkspacePathValid "a".data = kWorkspacePathInvalid ∧
    CheckWorkspacePathValid "".data = kWorkspacePathInvalid := by decide

/-- C2: for every input string, `CheckWorkspacePathValid` returns
`kSuccess` exactly when the string contains exactly two `'/'` characters,
and returns `kWorkspacePathInvalid` whenever the `'/'` count differs
from two. -/
theorem checkWorkspacePathValid_spec (s : List Char) :
    (CheckWorkspacePathValid s = kSuccess ↔ s.count '/' = 2) ∧
    (s.count '/' ≠ 2 → CheckWorkspacePathValid s = kWorkspacePathInvalid) := by
  refine ⟨checkWorkspacePathValid_success_iff s, fun hne => ?_⟩
  rcases checkWorkspacePathValid_cases s with h | h
  · exact absurd ((checkWorkspacePathValid_success_iff s).mp h) hne
  · exact h

/-- C2 witness: concrete instantiation at `"a/b"`, whose `'/'` count is 1. -/
theorem checkWorkspacePathValid_spec_witness :
    CheckWorkspacePathValid "a/b".data = kWorkspacePathInvalid :=
  (checkWorkspacePathValid_spec "a/b".data).2 (by decide)

/-! ## CommandBuffer (`qfs_client_implementation.cc:32-75`)

The buffer wraps `std::vector<byte> data`. `Append` inserts at the end and
maps an allocation failure to `kBufferTooBig`; `std::vector` gives the
strong exception guarantee here, so a failed insert leaves the vector
untouched. The implementation-defined maximum size appears as the
parameter `cap`. -/

namespace CommandBuffer

/-- Embeds `CommandBuffer::Data`: returns the stored bytes. -/
def Data (b : List Nat) : List Nat := b

/-- Embeds `CommandBuffer::Size`: returns the number of stored bytes. -/
def Size (b : List Nat) : Nat := b.length

/-- Embeds `CommandBuffer::Reset`: clears the stored bytes. -/
def Reset (_b : List Nat) : List Nat := []

/-- Embeds `CommandBuffer::Append`: insert `d` at the end of the vector, or
return `kBufferTooBig` (buffer unchanged) when the growth would exceed the
bound `cap`. -/
def Append (cap : Nat) (b : List Nat) (d : List Nat) : ErrorCode × List Nat :=
  if b.length + d.length > cap then (kBufferTooBig, b) else (kSuccess, b ++ d)

/-- Embeds `CommandBuffer::CopyString`: clear the vector, then append the
`1 + strlen(s)` bytes of the C string `s` — its characters plus the NUL
terminator. `s` is the NUL-free byte content of the C string. -/
def CopyString (cap : Nat) (b : List Nat) (s : List Nat) : ErrorCode × List Nat :=
  Append cap (Reset b) (s ++ [0])

end CommandBuffer

/-- C6: an `Append` that fits within the bound succeeds and extends the
buffer so that `Data`/`Size` reproduce exactly the prior content followed
by the appended bytes; an `Append` whose growth would exceed the bound
returns `kBufferTooBig` and leaves content and size unchanged. -/
theorem commandBuffer_append_spec (cap : Nat) (b d : List Nat) :
    (CommandBuffer.Size b + d.length ≤ cap →
      CommandBuffer.Append cap b d = (kSuccess, b ++ d) ∧
      CommandBuffer.Data (CommandBuffer.Append cap b d).2 = b ++ d ∧
      CommandBuffer.Size (CommandBuffer.Append cap b d).2 =
        CommandBuffer.Size b + d.length) ∧
    (CommandBuffer.Size b + d.length > cap →
      (CommandBuffer.Append cap b d).1 = kBufferTooBig ∧
      (CommandBuffer.Append cap b d).2 = b ∧
      CommandBuffer.Size (CommandBuffer.Append cap b d).2 =
        CommandBuffer.Size b) := by
  unfold CommandBuffer.Append CommandBuffer.Size CommandBuffer.Data
  constructor
  · intro h
    rw [if_neg (by omega)]
    simp
  · intro h
    rw [if_pos (by omega)]
    simp

/-- C6 witness: appending `[1, 2]` to `[9]` under bound 8 succeeds and
reproduces the bytes; appending `[1, 2]` to `[9]` under bound 2 fails with
`kBufferTooBig` and leaves the buffer unchanged. -/
theorem commandBuffer_append_spec_witness :
    CommandBuffer.Append 8 [9] [1, 2] = (kSuccess, [9, 1, 2]) ∧
    (CommandBuffer.Append 2 [9] [1, 2]).1 = kBufferTooBig ∧
    (CommandBuffer.Append 2 [9] [1, 2]).2 = [9] :=
  ⟨((commandBuffer_append_spec 8 [9] [1, 2]).1 (by decide)).1,
   ((commandBuffer_append_spec 2 [9] [1, 2]).2 (by decide)).1,
   ((commandBuffer_append_spec 2 [9] [1, 2]).2 (by decide)).2.1⟩

/-- C9: `CopyString s` resets the buffer and appends the bytes of `s`
followed by one trailing NUL terminator — whatever was in the buffer
before, a fitting string yields exactly `s ++ [0]`; its error outcome is
exactly that of `Append` on the reset buffer; and `CopyString "abc"`
produces exactly the 4 bytes `'a','b','c',0`. -/
theorem commandBuffer_copyString_spec (cap : Nat) (b s : List Nat) :
    (s.length + 1 ≤ cap →
      CommandBuffer.CopyString cap b s = (kSuccess, s ++ [0])) ∧
    (CommandBuffer.CopyString cap b s).1 =
      (CommandBuffer.Append cap (CommandBuffer.Reset b) (s ++ [0])).1 ∧
    CommandBuffer.CopyString 4096 b [97, 98, 99] = (kSuccess, [97, 98, 99, 0]) := by
  refine ⟨fun h => ?_, rfl, rfl⟩
  unfold CommandBuffer.CopyString CommandBuffer.Append CommandBuffer.Reset
  rw [if_neg (by simp; omega)]
  simp

/-- C9 witness: copying the two-byte string `[1, 2]` over prior content
`[5]` under bound 10 yields the bytes `[1, 2, 0]`. -/
theorem commandBuffer_copyString_spec_witness :
    CommandBuffer.CopyString 10 [5] [1, 2] = (kSuccess, [1, 2, 0]) :=
  (commandBuffer_copyString_spec 10 [5] [1, 2]).1 (by decide)

/-! ## ReadResponse (`qfs_client_implementation.cc:180-217`)

After seeking to offset 0 the loop reads up to 4096 bytes at a time into a
stack array and appends each chunk to the (reset) output buffer, stopping
once the stream reports end-of-file. `istream::read` sets the EOF flag
only when a read attempts to go past the end, so a read that returns fewer
than 4096 bytes — including a zero-byte read when the content length is an
exact multiple of 4096 — is the final iteration. `rest` is the stream
content not yet consumed. -/

/-- The fixed chunk size of the read loop (`byte data[4096]`). -/
def kReadChunkSize : Nat := 4096

/-- The read loop of `ApiImpl::ReadResponse`: append chunks of at most
`kReadChunkSize` bytes of `rest` to `acc` until end-of-stream, returning
the `Append` error as soon as one occurs. -/
def readLoop (cap : Nat) (acc rest : List Nat) : ErrorCode × List Nat :=
  if _h : rest.length < kReadChunkSize then
    CommandBuffer.Append cap acc rest
  else
    let step := CommandBuffer.Append cap acc (rest.take kReadChunkSize)
    if step.1 = kSuccess then readLoop cap step.2 (rest.drop kReadChunkSize)
    else step
termination_by rest.length
decreasing_by
  simp only [List.length_drop]
  unfold kReadChunkSize at *
  omega

/-- Embeds `ApiImpl::ReadResponse`: seek to 0, reset the output buffer (whatever
`buf` held before is discarded), then run the chunked read loop over the
full stream content. -/
def ReadResponse (cap : Nat) (buf content : List Nat) : ErrorCode × List Nat :=
  readLoop cap (CommandBuffer.Reset buf) content

lemma readLoop_ok (cap : Nat) :
    ∀ (n : Nat) (acc rest : List Nat), rest.length ≤ n → acc.length + rest.length ≤ cap →
      readLoop cap acc rest = (kSuccess, acc ++ rest) := by
  intro n
  induction n with
  | zero =>
    intro acc rest h1 h2
    have hrest : rest = [] := List.length_eq_zero.mp (Nat.le_zero.mp h1)
    subst hrest
    rw [readLoop]
    rw [dif_pos (by unfold kReadChunkSize; simp)]
    unfold CommandBuffer.Append
    rw [if_neg (by omega)]
  | succ n ih =>
    intro acc rest h1 h2
    rw [readLoop]
    by_cases hlt : rest.length < kReadChunkSize
    · rw [dif_pos hlt]
      unfold CommandBuffer.Append
      rw [if_neg (by omega)]
    · rw [dif_neg hlt]
      have htake : (rest.take kReadChunkSize).length = kReadChunkSize := by
        simp only [List.length_take]
        omega
      have hstep : CommandBuffer.Append cap acc (rest.take kReadChunkSize) =
          (kSuccess, acc ++ rest.take kReadChunkSize) := by
        unfold CommandBuffer.Append
        rw [if_neg (by rw [htake]; omega)]
      rw [hstep]
      have hrec := ih (acc ++ rest.take kReadChunkSize) (rest.drop kReadChunkSize)
        (by simp only [List.length_drop]; unfold kReadChunkSize at *; omega)
        (by simp only [List.length_append, List.length_drop, htake]; omega)
      simp [hrec, List.append_assoc, List.take_append_drop]

/-- C7: for every prior buffer content and every stream content that fits
within the buffer bound — including contents longer than the 4096-byte
chunk — `ReadResponse` discards the prior content and reassembles the
stream exactly, so the resulting buffer equals the full response bytes
with the exact original length. -/
theorem readResponse_reassembles (cap : Nat) (buf content : List Nat)
    (h : content.length ≤ cap) :
    ReadResponse cap buf content = (kSuccess, content) ∧
    (ReadResponse cap buf content).2.length = content.length := by
  have hmain : ReadResponse cap buf content = (kSuccess, content) := by
    unfold ReadResponse CommandBuffer.Reset
    have := readLoop_ok cap content.length [] content (le_refl _) (by simpa using h)
    simpa using this
  exact ⟨hmain, by rw [hmain]⟩

/-- C7 witness: a 10000-byte response — larger than two full chunks — is
reassembled exactly, replacing the prior buffer content `[3]`. -/
theorem readResponse_reassembles_witness :
    ReadResponse 20000 [3] (List.replicate 10000 7) =
      (kSuccess, List.replicate 10000 7) :=
  (readResponse_reassembles 20000 [3] (List.replicate 10000 7)
    (by simp only [List.length_replicate]; omega)).1

/-! ## SendCommand (`qfs_client_implementation.cc:136-155`)

`SendCommand` runs `Open`, then `WriteCommand`, then (only in tests) the
injected hook, then `ReadResponse`, returning at the first non-success
error. The I/O layer is embedded as an oracle giving each stage's result
in this execution; the returned trace records which stages actually ran. -/

/-- What each I/O stage would return in this execution. `hookResult` is
`none` when no test hook is installed (`send_test_hook == NULL`). -/
structure IoBehavior where
  openResult : Error
  writeResult : Error
  hookResult : Option Error
  readResult : Error
  deriving DecidableEq, Repr

/-- The stages `SendCommand` can run, in source order. -/
inductive Stage where
  | stageOpen
  | stageWrite
  | stageHook
  | stageRead
  deriving DecidableEq, Repr

open Stage

/-- Embeds `ApiImpl::SendCommand`: `Open`; on success `WriteCommand`; on success
the optional test hook; on success `ReadResponse`. The first failing
stage's error is returned unchanged, and the trace lists the stages
invoked, in order. -/
def SendCommand (io : IoBehavior) : Error × List Stage :=
  if io.openResult.code ≠ kSuccess then
    (io.openResult, [stageOpen])
  else if io.writeResult.code ≠ kSuccess then
    (io.writeResult, [stageOpen, stageWrite])
  else
    match io.hookResult with
    | some herr =>
      if herr.code ≠ kSuccess then
        (herr, [stageOpen, stageWrite, stageHook])
      else
        (io.readResult, [stageOpen, stageWrite, stageHook, stageRead])
    | none =>
      (io.readResult, [stageOpen, stageWrite, stageRead])

/-- C8: `SendCommand` runs open, write, read in strict order:
`ReadResponse` never appears in the trace of an execution where `Open` or
`WriteCommand` failed; a failed `Open` returns exactly the open error with
only the open stage run; a failed `WriteCommand` returns exactly the write
error with only open and write run; and when both succeed (no test hook
installed) the result is `ReadResponse`'s, with the trace in the order
open, write, read. -/
theorem sendCommand_stage_order (io : IoBehavior) :
    ((io.openResult.code ≠ kSuccess ∨ io.writeResult.code ≠ kSuccess) →
      stageRead ∉ (SendCommand io).2) ∧
    (io.openResult.code ≠ kSuccess →
      SendCommand io = (io.openResult, [stageOpen])) ∧
    (io.openResult.code = kSuccess → io.writeResult.code ≠ kSuccess →
      SendCommand io = (io.writeResult, [stageOpen, stageWrite])) ∧
    (io.openResult.code = kSuccess → io.writeResult.code = kSuccess →
      io.hookResult = none →
      SendCommand io = (io.readResult, [stageOpen, stageWrite, stageRead])) := by
  by_cases ho : io.openResult.code = kSuccess
  · by_cases hw : io.writeResult.code = kSuccess
    · refine ⟨fun hc => ?_, fun hc => absurd ho hc, fun _ hc => absurd hw hc,
        fun _ _ hn => ?_⟩
      · rcases hc with hc | hc
        · exact absurd ho hc
        · exact absurd hw hc
      · simp [SendCommand, ho, hw, hn]
    · refine ⟨fun _ => ?_, fun hc => absurd ho hc, fun _ _ => ?_, fun _ hc => absurd hc hw⟩
      · simp [SendCommand, ho, hw]
      · simp [SendCommand, ho, hw]
  · refine ⟨fun _ => ?_, fun _ => ?_, fun hc => absurd hc ho, fun hc => absurd hc ho⟩
    · simp [SendCommand, ho]
    · simp [SendCommand, ho]

/-- C8 witness: with a failing `Open` (`kCantOpenApiFile`), `SendCommand`
returns the open error, runs only the open stage, and never reaches the
read stage. -/
theorem sendCommand_stage_order_witness :
    SendCommand ⟨⟨kCantOpenApiFile, "/x/api"⟩, ⟨kSuccess, ""⟩, none, ⟨kSuccess, ""⟩⟩ =
      (⟨kCantOpenApiFile, "/x/api"⟩, [stageOpen]) ∧
    stageRead ∉
      (SendCommand ⟨⟨kCantOpenApiFile, "/x/api"⟩, ⟨kSuccess, ""⟩, none,
        ⟨kSuccess, ""⟩⟩).2 :=
  ⟨(sendCommand_stage_order _).2.1 (by simp),
   (sendCommand_stage_order _).1 (Or.inl (by simp))⟩

/-! ## JSON layer (`qfs_client_implementation.cc:293-360`)

Parsed JSON values as the jansson library hands them to the client. The
library parser (`json_loads`) is external; it appears below as the
`parsed : Option Json` outcome of parsing the raw response bytes together
with its diagnostic text. jansson objects never hold duplicate keys, and
floating-point payloads are never inspected by the client, so the `real`
constructor carries no value. -/

/-- A parsed jansson value. -/
inductive Json where
  | null
  | bool (b : Bool)
  | int (n : Int)
  | real
  | str (s : String)
  | arr (elems : List Json)
  | obj (fields : List (String × Json))

/-- First binding of `key` in an object's field list. -/
def lookupField : List (String × Json) → String → Option Json
  | [], _ => none
  | (k, v) :: rest, key => if k = key then some v else lookupField rest key

/-- jansson `json_object_get`: `NULL` on a non-object or an absent key. -/
def json_object_get : Json → String → Option Json
  | Json.obj fields, key => lookupField fields key
  | _, _ => none

/-- jansson `json_is_integer`. -/
def json_is_integer : Json → Bool
  | Json.int _ => true
  | _ => false

/-- jansson `json_is_boolean`. -/
def json_is_boolean : Json → Bool
  | Json.bool _ => true
  | _ => false

/-- jansson `json_is_true`. -/
def json_is_true : Json → Bool
  | Json.bool b => b
  | _ => false

/-- jansson `json_integer_value` (0 on a non-integer). -/
def json_integer_value : Json → Int
  | Json.int n => n
  | _ => 0

/-- jansson `json_string_value` (`NULL` on a non-string). -/
def json_string_value : Json → Option String
  | Json.str s => some s
  | _ => none

/-- Field-name constant `kErrorCode` from the data header (values fixed by
the wire format). -/
def kErrorCode : String := "ErrorCode"

/-- Field-name constant `kMessage`. -/
def kMessage : String := "Message"

/-- Field-name constant `kAccessList`. -/
def kAccessList : String := "AccessList"

/-- The `CommandError` success value `kCmdOk`: response `ErrorCode` 0
means success. -/
def kCmdOk : Int := 0

/-- Modelled from the spec: `util::buildJsonErrorDetails` (utility
translation unit, not under src/) combines the diagnostic text with a
prefix of the offending response bytes for debugging. -/
def buildJsonErrorDetails (text : String) (raw : String) : String :=
  text ++ " | " ++ String.mk (raw.data.take 256)

/-- Modelled from the spec: `util::getApiError` (utility translation unit,
not under src/) renders the remote command error code together with the
response `Message`. -/
def getApiError (code : Int) (message : Option String) : String :=
  toString code ++ ": " ++ message.getD ""

/-- Embeds `ApiImpl::CheckCommonApiResponse`: classify the response buffer from
the parse outcome. `json_unpack_ex` with format `"o"` merely binds the
root value and always succeeds on a non-`NULL` input, so it introduces no
extra case. -/
def CheckCommonApiResponse (raw : String) (parsed : Option Json)
    (diag : String) : Error :=
  match parsed with
  | none => getError kJsonDecodingError (buildJsonErrorDetails diag raw)
  | some response_json =>
    match json_object_get response_json kErrorCode with
    | none => getError kMissingJsonObject (buildJsonErrorDetails kErrorCode raw)
    | some error_json_obj =>
      match json_object_get response_json kMessage with
      | none => getError kMissingJsonObject (buildJsonErrorDetails kMessage raw)
      | some message_json_obj =>
        if json_is_integer error_json_obj = false then
          getError kJsonDecodingError
            (buildJsonErrorDetails "error code in response JSON is not valid" raw)
        else if json_integer_value error_json_obj ≠ kCmdOk then
          getError kApiError
            (buildJsonErrorDetails
              (getApiError (json_integer_value error_json_obj)
                (json_string_value message_json_obj)) raw)
        else
          getError kSuccess ""

/-- C3: `CheckCommonApiResponse` classifies every response: a parse
failure yields `kJsonDecodingError` with a prefix of the offending bytes
attached to the detail; a parsed value without an `ErrorCode` field yields
`kMissingJsonObject` naming `ErrorCode`; one with `ErrorCode` but no
`Message` yields `kMissingJsonObject` naming `Message`; a present but
non-integer `ErrorCode` yields `kJsonDecodingError`; a nonzero integer
`ErrorCode` yields `kApiError` carrying the remote code and the `Message`
value; an integer `ErrorCode` equal to 0 yields `kSuccess`. -/
theorem checkCommonApiResponse_classification (raw diag : String) (v : Json) :
    (∃ p, p <+: raw.data ∧
      CheckCommonApiResponse raw none diag =
        ⟨kJsonDecodingError, diag ++ " | " ++ String.mk p⟩) ∧
    (json_object_get v kErrorCode = none →
      CheckCommonApiResponse raw (some v) diag =
        ⟨kMissingJsonObject, buildJsonErrorDetails kErrorCode raw⟩) ∧
    (∀ e, json_object_get v kErrorCode = some e →
      json_object_get v kMessage = none →
      CheckCommonApiResponse raw (some v) diag =
        ⟨kMissingJsonObject, buildJsonErrorDetails kMessage raw⟩) ∧
    (∀ e m, json_object_get v kErrorCode = some e →
      json_object_get v kMessage = some m →
      json_is_integer e = false →
      (CheckCommonApiResponse raw (some v) diag).code = kJsonDecodingError) ∧
    (∀ n m, json_object_get v kErrorCode = some (Json.int n) →
      json_object_get v kMessage = some m → n ≠ 0 →
      CheckCommonApiResponse raw (some v) diag =
        ⟨kApiError,
          buildJsonErrorDetails (getApiError n (json_string_value m)) raw⟩) ∧
    (∀ m, json_object_get v kErrorCode = some (Json.int 0) →
      json_object_get v kMessage = some m →
      CheckCommonApiResponse raw (some v) diag = ⟨kSuccess, ""⟩) := by
  refine ⟨⟨raw.data.take 256, List.take_prefix _ _, rfl⟩,
    fun h1 => ?_, fun e h1 h2 => ?_, fun e m h1 h2 h3 => ?_,
    fun n m h1 h2 h3 => ?_, fun m h1 h2 => ?_⟩
  · simp [CheckCommonApiResponse, h1, getError]
  · simp [CheckCommonApiResponse, h1, h2, getError]
  · simp [CheckCommonApiResponse, h1, h2, h3, getError]
  · simp [CheckCommonApiResponse, h1, h2, json_is_integer, json_integer_value,
      kCmdOk, h3, getError]
  · simp [CheckCommonApiResponse, h1, h2, json_is_integer, json_integer_value,
      kCmdOk, getError]

/-- C3 witness: the well-formed success envelope
`{"ErrorCode": 0, "Message": ""}` is classified as `kSuccess`, via the
last clause of the classification theorem. -/
theorem checkCommonApiResponse_classification_witness :
    CheckCommonApiResponse "r" (some (Json.obj
      [(kErrorCode, Json.int 0), (kMessage, Json.str "")])) "d" =
      ⟨kSuccess, ""⟩ :=
  (checkCommonApiResponse_classification "r" "d" _).2.2.2.2.2
    (Json.str "") rfl rfl

/-! ## GetAccessed payload handling
(`qfs_client_implementation.cc:393-485`) -/

/-- The fields `json_object_foreach` iterates: an object's field list; it
iterates nothing on a non-object. -/
def objFields : Json → List (String × Json)
  | Json.obj fields => fields
  | _ => []

/-- The loop body of `PrepareAccessedListResponse`: keep an entry only
when its value is a boolean (`json_is_boolean`), storing
`json_is_true v`; every non-boolean value is skipped silently. -/
def collectBools : List (String × Json) → List (String × Bool)
  | [] => []
  | (k, v) :: rest =>
    if json_is_boolean v then (k, json_is_true v) :: collectBools rest
    else collectBools rest

/-- Embeds `ApiImpl::PrepareAccessedListResponse`: read the `AccessList` field of
the response object; absent field fails with `kMissingJsonObject`
(detail `"AccessList"`); otherwise collect the boolean-valued entries. -/
def PrepareAccessedListResponse (response_json : Json) :
    Error × List (String × Bool) :=
  match json_object_get response_json kAccessList with
  | none => (getError kMissingJsonObject "AccessList", [])
  | some accessed_list_json_obj =>
    (getError kSuccess "", collectBools (objFields accessed_list_json_obj))

/-- Embeds `ApiImpl::FormatAccessedList`: a created-files header followed by the
true-valued keys, then an accessed-files header followed by the
false-valued keys, each key newline-terminated. -/
def FormatAccessedList (accessed : List (String × Bool)) : String :=
  "------ Created Files ------\n" ++
    String.join ((accessed.filter (fun kv => kv.2)).map (fun kv => kv.1 ++ "\n")) ++
  "------ Accessed Files ------\n" ++
    String.join ((accessed.filter (fun kv => !kv.2)).map (fun kv => kv.1 ++ "\n"))

/-- The response-processing phase of `ApiImpl::GetAccessed` after the
transport succeeded: `CheckCommonApiResponse`, then
`PrepareAccessedListResponse`, then `FormatAccessedList` on the collected
map. The `none` branch under a successful check is unreachable, since a
parse failure already failed the check. -/
def GetAccessedOnResponse (raw : String) (parsed : Option Json)
    (diag : String) : Error × String :=
  let err := CheckCommonApiResponse raw parsed diag
  if err.code ≠ kSuccess then (err, "")
  else
    match parsed with
    | none => (err, "")
    | some response_json =>
      let prepared := PrepareAccessedListResponse response_json
      if prepared.1.code ≠ kSuccess then (prepared.1, "")
      else (getError kSuccess "", FormatAccessedList prepared.2)

/-- What `collectBools` keeps: exactly the boolean-valued entries. -/
def pickBool (kv : String × Json) : Option (String × Bool) :=
  match kv.2 with
  | Json.bool b => some (kv.1, b)
  | _ => none

lemma collectBools_eq_filterMap (fields : List (String × Json)) :
    collectBools fields = fields.filterMap pickBool := by
  induction fields with
  | nil => rfl
  | cons kv rest ih =>
    obtain ⟨k, v⟩ := kv
    cases v <;> simp [collectBools, json_is_boolean, json_is_true, pickBool,
      List.filterMap_cons, ih]

lemma mem_collectBools_iff (fields : List (String × Json)) (k : String)
    (b : Bool) :
    (k, b) ∈ collectBools fields ↔ (k, Json.bool b) ∈ fields := by
  rw [collectBools_eq_filterMap]
  constructor
  · intro h
    obtain ⟨⟨k', v'⟩, hmem, hpick⟩ := List.mem_filterMap.mp h
    cases v' <;> simp [pickBool] at hpick
    obtain ⟨hk, hb⟩ := hpick
    subst hk
    subst hb
    exact hmem
  · intro h
    exact List.mem_filterMap.mpr ⟨(k, Json.bool b), h, rfl⟩

/-- C5: when the response's `AccessList` field is an object,
`PrepareAccessedListResponse` succeeds and its result contains exactly the
entries whose value is a boolean — an entry `(k, b)` is in the result iff
`AccessList` maps `k` to the boolean `b`, and every non-boolean entry is
silently skipped without producing an error; on the spec's example
envelope, `a.txt` is listed under the created-files header and `b.txt`
under the accessed-files header. -/
theorem prepareAccessedListResponse_spec (response_json : Json)
    (fields : List (String × Json)) :
    (json_object_get response_json kAccessList = some (Json.obj fields) →
      (PrepareAccessedListResponse response_json).1 = getError kSuccess "" ∧
      (PrepareAccessedListResponse response_json).2 =
        fields.filterMap pickBool ∧
      ∀ k b, (k, b) ∈ (PrepareAccessedListResponse response_json).2 ↔
        (k, Json.bool b) ∈ fields) ∧
    GetAccessedOnResponse "" (some (Json.obj
      [(kErrorCode, Json.int 0), (kMessage, Json.str ""),
       (kAccessList, Json.obj
         [("a.txt", Json.bool true), ("b.txt", Json.bool false)])])) "" =
      (getError kSuccess "",
        "------ Created Files ------\na.txt\n------ Accessed Files ------\nb.txt\n") := by
  constructor
  · intro h
    refine ⟨?_, ?_, ?_⟩
    · simp [PrepareAccessedListResponse, h]
    · simp [PrepareAccessedListResponse, h, objFields, collectBools_eq_filterMap]
    · intro k b
      simp [PrepareAccessedListResponse, h, objFields, mem_collectBools_iff]
  · rfl

/-- C5 witness: on an `AccessList` holding a true entry, a false entry and
a skipped non-boolean entry, the collected map holds exactly the two
boolean entries. -/
theorem prepareAccessedListResponse_spec_witness :
    (PrepareAccessedListResponse (Json.obj [(kAccessList, Json.obj
      [("a.txt", Json.bool true), ("n", Json.int 3),
       ("b.txt", Json.bool false)])])).2 =
      [("a.txt", true), ("b.txt", false)] :=
  ((prepareAccessedListResponse_spec
    (Json.obj [(kAccessList, Json.obj
      [("a.txt", Json.bool true), ("n", Json.int 3),
       ("b.txt", Json.bool false)])])
    [("a.txt", Json.bool true), ("n", Json.int 3),
     ("b.txt", Json.bool false)]).1 rfl).2.1.trans rfl

/-- C10: a response whose envelope carries integer `ErrorCode` 0 (with a
`Message` present) but whose top-level object has no `AccessList` field
makes `GetAccessed` fail with `kMissingJsonObject` and detail
`"AccessList"`, not succeed with an empty result. -/
theorem getAccessed_missing_accessList (raw diag : String) (m : Json)
    (fields : List (String × Json))
    (hcode : lookupField fields kErrorCode = some (Json.int 0))
    (hmsg : lookupField fields kMessage = some m)
    (hnone : lookupField fields kAccessList = none) :
    GetAccessedOnResponse raw (some (Json.obj fields)) diag =
      (⟨kMissingJsonObject, "AccessList"⟩, "") := by
  have hcheck : CheckCommonApiResponse raw (some (Json.obj fields)) diag =
      ⟨kSuccess, ""⟩ := by
    simp [CheckCommonApiResponse, json_object_get, hcode, hmsg,
      json_is_integer, json_integer_value, kCmdOk, getError]
  simp [GetAccessedOnResponse, hcheck, PrepareAccessedListResponse,
    json_object_get, hnone, getError]

/-- C10 witness: the envelope `{"ErrorCode": 0, "Message": ""}` without
any `AccessList` field yields `kMissingJsonObject` with detail
`"AccessList"`. -/
theorem getAccessed_missing_accessList_witness :
    GetAccessedOnResponse "" (some (Json.obj
      [(kErrorCode, Json.int 0), (kMessage, Json.str "")])) "" =
      (⟨kMissingJsonObject, "AccessList"⟩, "") :=
  getAccessed_missing_accessList "" "" (Json.str "")
    [(kErrorCode, Json.int 0), (kMessage, Json.str "")] rfl rfl rfl

/-! ## DeterminePath (`qfs_client_implementation.cc:219-269`)

The walk splits the current working directory into segments, and at each
step builds the candidate `/<join of segments>/api`, `lstat`s it without
following symlinks, succeeds when it is a regular file or symlink whose
inode equals the expected `api_inode_id`, and otherwise pops the last
segment until the segment list is empty. The host filesystem appears as
an oracle `fs` mapping each ancestor's segment list to the `lstat` result
of that directory's entry named `"api"` (`none` when `lstat` fails). The
ancestors the walk visits are exactly the list-prefixes of the cwd's
segment list. -/

/-- The `lstat` file type, as far as the walk distinguishes it. -/
inductive FileType where
  | regular
  | symlink
  | directory
  | other
  deriving DecidableEq, Repr

/-- The `lstat` outcome: the mode's file type and the inode number. -/
structure FileStatus where
  ftype : FileType
  ino : Nat
  deriving DecidableEq, Repr

/-- The acceptance test of the loop body: the candidate exists,
`S_ISREG || S_ISLNK` holds, and `st_ino` equals the expected inode. -/
def apiMatches (fs : List String → Option FileStatus) (ino : Nat)
    (dirs : List String) : Bool :=
  match fs dirs with
  | some st =>
    decide ((st.ftype = FileType.regular ∨ st.ftype = FileType.symlink) ∧
      st.ino = ino)
  | none => false

/-- The `while (true)` walk of `ApiImpl::DeterminePath`: test the current
segment list; on a match return it; at the root give up; otherwise pop
the last segment (`directories.pop_back()`) and continue. -/
def determinePathLoop (fs : List String → Option FileStatus) (ino : Nat) :
    List String → Option (List String)
  | [] => if apiMatches fs ino [] then some [] else none
  | d :: ds =>
    if apiMatches fs ino (d :: ds) then some (d :: ds)
    else determinePathLoop fs ino (d :: ds).dropLast
termination_by dirs => dirs.length
decreasing_by
  simp [List.length_dropLast]

/-- The candidate path string `"/" + Join(directories, "/") + "/" + "api"`
(`util::Join` joins segments with the separator). -/
def apiCandidatePath (dirs : List String) : String :=
  "/" ++ String.intercalate "/" dirs ++ "/" ++ "api"

/-- Embeds `ApiImpl::DeterminePath`: run the walk from the cwd's segments; on a
match record the candidate path and succeed; if the root is passed
without a match, fail with `kCantFindApiFile` naming the cwd. -/
def DeterminePath (fs : List String → Option FileStatus) (ino : Nat)
    (cwd : List String) : Error × Option (List String) :=
  match determinePathLoop fs ino cwd with
  | some d => (getError kSuccess (apiCandidatePath d), some d)
  | none =>
    (getError kCantFindApiFile ("/" ++ String.intercalate "/" cwd), none)

lemma apiMatches_true_iff (fs : List String → Option FileStatus) (ino : Nat)
    (dirs : List String) :
    apiMatches fs ino dirs = true ↔
      ∃ st, fs dirs = some st ∧
        (st.ftype = FileType.regular ∨ st.ftype = FileType.symlink) ∧
        st.ino = ino := by
  unfold apiMatches
  cases h : fs dirs with
  | none => simp
  | some st => simp [h]

lemma prefix_dropLast_of_proper {α : Type} {e l : List α} (h : e <+: l)
    (hlt : e.length < l.length) : e <+: l.dropLast := by
  rw [List.prefix_iff_eq_take] at h ⊢
  rw [List.dropLast_eq_take, List.take_take, min_eq_left (by omega)]
  exact h

lemma determinePathLoop_some_spec (fs : List String → Option FileStatus)
    (ino : Nat) :
    ∀ (n : Nat) (cwd d : List String), cwd.length ≤ n →
      determinePathLoop fs ino cwd = some d →
      d <+: cwd ∧ apiMatches fs ino d = true ∧
      ∀ e, e <+: cwd → d.length < e.length → apiMatches fs ino e = false := by
  intro n
  induction n with
  | zero =>
    intro cwd d h1 h2
    have hnil : cwd = [] := List.length_eq_zero.mp (Nat.le_zero.mp h1)
    subst hnil
    rw [determinePathLoop] at h2
    by_cases hm : apiMatches fs ino [] = true
    · rw [if_pos hm] at h2
      obtain rfl : ([] : List String) = d := Option.some.inj h2
      refine ⟨List.nil_prefix, hm, fun e he hlen => ?_⟩
      rw [List.prefix_nil.mp he] at hlen
      omega
    · rw [if_neg hm] at h2
      exact absurd h2 (by simp)
  | succ n ih =>
    intro cwd d h1 h2
    match cwd with
    | [] =>
      exact ih [] d (by simp) h2
    | c :: cs =>
      rw [determinePathLoop] at h2
      by_cases hm : apiMatches fs ino (c :: cs) = true
      · rw [if_pos hm] at h2
        obtain rfl : c :: cs = d := Option.some.inj h2
        refine ⟨List.prefix_rfl, hm, fun e he hlen => ?_⟩
        have := he.length_le
        omega
      · rw [if_neg hm] at h2
        have hlen : (c :: cs).dropLast.length ≤ n := by
          simp [List.length_dropLast] at h1 ⊢
          omega
        obtain ⟨hpre, hmatch, hnone⟩ := ih (c :: cs).dropLast d hlen h2
        refine ⟨hpre.trans (List.dropLast_prefix _), hmatch, fun e he hde => ?_⟩
        by_cases heq : e.length = (c :: cs).length
        · rw [List.IsPrefix.eq_of_length he heq]
          exact Bool.not_eq_true _ |>.mp hm
        · have hproper : e.length < (c :: cs).length :=
            lt_of_le_of_ne he.length_le heq
          exact hnone e (prefix_dropLast_of_proper he hproper) hde

lemma determinePathLoop_none_spec (fs : List String → Option FileStatus)
    (ino : Nat) :
    ∀ (n : Nat) (cwd : List String), cwd.length ≤ n →
      determinePathLoop fs ino cwd = none →
      ∀ e, e <+: cwd → apiMatches fs ino e = false := by
  intro n
  induction n with
  | zero =>
    intro cwd h1 h2 e he
    have hnil : cwd = [] := List.length_eq_zero.mp (Nat.le_zero.mp h1)
    subst hnil
    rw [determinePathLoop] at h2
    by_cases hm : apiMatches fs ino [] = true
    · rw [if_pos hm] at h2
      exact absurd h2 (by simp)
    · rw [List.prefix_nil.mp he]
      exact Bool.not_eq_true _ |>.mp hm
  | succ n ih =>
    intro cwd h1 h2 e he
    match cwd with
    | [] => exact ih [] (by simp) h2 e he
    | c :: cs =>
      rw [determinePathLoop] at h2
      by_cases hm : apiMatches fs ino (c :: cs) = true
      · rw [if_pos hm] at h2
        exact absurd h2 (by simp)
      · rw [if_neg hm] at h2
        by_cases heq : e.length = (c :: cs).length
        · rw [List.IsPrefix.eq_of_length he heq]
          exact Bool.not_eq_true _ |>.mp hm
        · have hproper : e.length < (c :: cs).length :=
            lt_of_le_of_ne he.length_le heq
          have hlen : (c :: cs).dropLast.length ≤ n := by
            simp [List.length_dropLast] at h1 ⊢
            omega
          exact ih (c :: cs).dropLast hlen h2 e
            (prefix_dropLast_of_proper he hproper)

/-- C4: walking upward from the cwd, `DeterminePath` succeeds exactly at
the nearest ancestor whose `"api"` entry is a regular file or symlink with
the expected inode, recording that candidate path: a returned ancestor
`d` is a prefix of the cwd's segments, its `"api"` entry passes the
identity test, and every strictly nearer ancestor — in particular any
decoy named `"api"` that is a directory, another file type, or carries a
different inode — fails the test; when no ancestor up to the root passes,
the walk fails with `kCantFindApiFile`. -/
theorem determinePath_spec (fs : List String → Option FileStatus)
    (ino : Nat) (cwd : List String) :
    (∀ d, (DeterminePath fs ino cwd).2 = some d →
      (DeterminePath fs ino cwd).1 = getError kSuccess (apiCandidatePath d) ∧
      d <+: cwd ∧
      (∃ st, fs d = some st ∧
        (st.ftype = FileType.regular ∨ st.ftype = FileType.symlink) ∧
        st.ino = ino) ∧
      (∀ e, e <+: cwd → d.length < e.length →
        ¬ ∃ st, fs e = some st ∧
          (st.ftype = FileType.regular ∨ st.ftype = FileType.symlink) ∧
          st.ino = ino)) ∧
    ((DeterminePath fs ino cwd).2 = none →
      (DeterminePath fs ino cwd).1.code = kCantFindApiFile ∧
      ∀ e, e <+: cwd →
        ¬ ∃ st, fs e = some st ∧
          (st.ftype = FileType.regular ∨ st.ftype = FileType.symlink) ∧
          st.ino = ino) := by
  constructor
  · intro d hd
    have hloop : determinePathLoop fs ino cwd = some d := by
      unfold DeterminePath at hd
      split at hd
      next d' heq =>
        simp only [Option.some.injEq] at hd
        subst hd
        exact heq
      next => exact absurd hd (by simp)
    obtain ⟨hpre, hmatch, hnone⟩ :=
      determinePathLoop_some_spec fs ino cwd.length cwd d (le_refl _) hloop
    refine ⟨by unfold DeterminePath; rw [hloop], hpre,
      (apiMatches_true_iff fs ino d).mp hmatch, fun e he hde hex => ?_⟩
    have := hnone e he hde
    rw [(apiMatches_true_iff fs ino e).mpr hex] at this
    exact absurd this (by simp)
  · intro hd
    have hloop : determinePathLoop fs ino cwd = none := by
      unfold DeterminePath at hd
      split at hd
      next => exact absurd hd (by simp)
      next heq => exact heq
    have hnone := determinePathLoop_none_spec fs ino cwd.length cwd
      (le_refl _) hloop
    refine ⟨by unfold DeterminePath; rw [hloop]; rfl, fun e he hex => ?_⟩
    have := hnone e he
    rw [(apiMatches_true_iff fs ino e).mpr hex] at this
    exact absurd this (by simp)

/-- The spec's decoy scenario as a concrete filesystem: a correctly
identified regular `"api"` (inode 2) two levels above the cwd `/a/b/c`,
and a decoy directory named `"api"` one level above it. -/
def fsExample (dirs : List String) : Option FileStatus :=
  if dirs = ["a"] then some ⟨FileType.regular, 2⟩
  else if dirs = ["a", "b"] then some ⟨FileType.directory, 2⟩
  else none

/-- C4 witness: in the decoy scenario the walk skips the directory decoy
one level up and succeeds at the correctly identified file two levels up,
recording `/a/api`. -/
theorem determinePath_spec_witness :
    (DeterminePath fsExample 2 ["a", "b", "c"]).1 =
      getError kSuccess (apiCandidatePath ["a"]) ∧
    ["a"] <+: ["a", "b", "c"] := by
  have hsome : (DeterminePath fsExample 2 ["a", "b", "c"]).2 = some ["a"] := by
    simp [DeterminePath, determinePathLoop, apiMatches, fsExample]
  have h := (determinePath_spec fsExample 2 ["a", "b", "c"]).1 ["a"] hsome
  exact ⟨h.1, h.2.1⟩

end QfsClient
